import Mathlib

/-!
Shallow embedding of `src/inlineplz/linters/__init__.py` (module
`inlineplz.linters`) together with proofs about its selector, scanner,
installer and run loop.

Modelling conventions, used throughout:

* The embedding fixes the POSIX branch of the source (`sys.platform` is not
  `"win32"`), so `os.path.sep` is `"/"` and `os.path.normcase` is the
  identity (which makes `fnmatch.fnmatch` equal to `fnmatch.fnmatchcase`).
* Python exceptions that can escape a function are modelled with `PyErr` and
  `Except`.  The one `ValueError` the module raises (`list.remove` in
  `all_filenames_in_dir`) is caught at its raise site and therefore handled
  inside `pruneDirs`; the `TypeError` raised by iterating `None` is modelled
  as `Except.error PyErr.typeError`.
* The filesystem (`os.walk`, `os.listdir`), the `identify` text classifier
  and `os.path.relpath` (which consults the process working directory) are
  external effects; they are modelled by an explicit `Env` value.
* Python `str.split` with a one-character separator, `str.startswith` and
  `str.strip` are re-implemented over `List Char` (`pySplit`,
  `pyStartsWith`, `pyStrip`) so that every definition evaluates by kernel
  reduction.
-/

/-- Python exception kinds that matter to `inlineplz.linters`: the
`TypeError` from iterating `None` and the `ValueError` from
`list.remove`. -/
inductive PyErr where
  | typeError
  | valueError
deriving DecidableEq

/-- Python `s.split(sep)` for a one-character separator `sep` (the module
only splits on `","` and on `os.path.sep = "/"`).  Like Python,
`pySplit "" c = [""]` and a trailing separator yields a trailing empty
string. -/
def pySplit (s : String) (sep : Char) : List String :=
  (s.data.splitOn sep).map String.mk

/-- Python `s.startswith(p)`. -/
def pyStartsWith (s p : String) : Bool :=
  p.data.isPrefixOf s.data

/-- Python `s.strip()`: remove leading and trailing whitespace. -/
def pyStrip (s : String) : String :=
  String.mk (((s.data.dropWhile Char.isWhitespace).reverse.dropWhile
    Char.isWhitespace).reverse)

/-- Character-class matching for `fnmatch` bracket expressions: `content` is
the text between `[` and `]` (negation already stripped); `a-b` denotes a
range, a `-` in first or last position is literal. -/
def classMatch : List Char → Char → Bool
  | [], _ => false
  | a :: '-' :: b :: rest, c =>
    if a ≤ c ∧ c ≤ b then true else classMatch rest c
  | a :: rest, c => a == c || classMatch rest c

/-- Scan for the `]` that closes an `fnmatch` bracket expression, returning
the class content and the remainder of the pattern; `none` when the bracket
is unclosed (in which case `fnmatch` treats `[` as a literal). -/
def splitAtClose : List Char → Option (List Char × List Char)
  | [] => none
  | ']' :: rest => some ([], rest)
  | c :: cs =>
    match splitAtClose cs with
    | some (content, rest) => some (c :: content, rest)
    | none => none

/-- Parse the inside of an `fnmatch` bracket expression, mirroring
`fnmatch.translate`: an optional leading `!` negates; a `]` immediately
after (the optional `!`) is literal content; the result is
`(negated, content, rest-of-pattern)`. -/
def extractClass (ps : List Char) : Option (Bool × List Char × List Char) :=
  match ps with
  | '!' :: ']' :: cs =>
    (splitAtClose cs).map (fun pr => (true, ']' :: pr.1, pr.2))
  | '!' :: cs =>
    (splitAtClose cs).map (fun pr => (true, pr.1, pr.2))
  | ']' :: cs =>
    (splitAtClose cs).map (fun pr => (false, ']' :: pr.1, pr.2))
  | cs =>
    (splitAtClose cs).map (fun pr => (false, pr.1, pr.2))

/-- Core of `fnmatch.fnmatchcase` on character lists, with explicit fuel so
that the definition is structurally recursive and kernel-computable.  Every
recursive call strictly decreases `pattern.length + s.length`, so fuel
`pattern.length + s.length + 1` (used by `fnmatch` below) is never
exhausted.  `*` matches any run of characters (including `/`), `?` any one
character, `[...]`/`[!...]` a character class, an unclosed `[` itself. -/
def globMatchF : Nat → List Char → List Char → Bool
  | 0, _, _ => false
  | _ + 1, [], s => s.isEmpty
  | fuel + 1, '*' :: ps, s =>
    globMatchF fuel ps s ||
      (match s with
       | [] => false
       | _ :: s2 => globMatchF fuel ('*' :: ps) s2)
  | fuel + 1, '?' :: ps, s =>
    (match s with
     | [] => false
     | _ :: s2 => globMatchF fuel ps s2)
  | fuel + 1, '[' :: ps, s =>
    (match extractClass ps with
     | none =>
       (match s with
        | [] => false
        | c :: s2 => c == '[' && globMatchF fuel ps s2)
     | some (neg, content, rest) =>
       (match s with
        | [] => false
        | c :: s2 => (classMatch content c != neg) && globMatchF fuel rest s2))
  | fuel + 1, pc :: ps, s =>
    (match s with
     | [] => false
     | c :: s2 => pc == c && globMatchF fuel ps s2)

/-- Python `fnmatch.fnmatch(name, pat)` on the POSIX branch (where
`os.path.normcase` is the identity). -/
def fnmatch (name pat : String) : Bool :=
  globMatchF (pat.length + name.length + 1) pat.data name.data

/-- Directory tree rooted at some directory: its plain files and its named
subdirectories, the external data walked by `os.walk`. -/
inductive DirTree where
  | mk (files : List String) (subdirs : List (String × DirTree))

/-- File names of a directory node. -/
def DirTree.files : DirTree → List String
  | .mk fs _ => fs

/-- Named subdirectories of a directory node. -/
def DirTree.subdirs : DirTree → List (String × DirTree)
  | .mk _ sds => sds

/-- External environment of one run: the working directory path
(`os.getcwd()`), its listing (`os.listdir`), the directory tree under it
(`os.walk`), the `identify` text-file classifier, and `os.path.relpath`
relative to the process working directory. -/
structure Env where
  cwd : String
  rootListing : List String
  tree : DirTree
  isText : String → Bool
  relpath : String → String
  /-- Upper bound on the depth of `tree` (any real filesystem is finite);
  it is the fuel of the structurally recursive embedding of `os.walk`, and
  every value at least the depth of `tree` yields the walk of the whole
  tree. -/
  walkFuel : Nat

/-- Embeds `LinterRunner.should_ignore_path` (lines 714-724): a path is
ignored when some ignore rule is a prefix of its relpath, a prefix of the
raw path, a shell glob matching it, or equal to one of its `/`-separated
segments. -/
def should_ignore_path (env : Env) (path : String) (ignore_paths : List String) : Bool :=
  ignore_paths.any fun ip =>
    pyStartsWith (env.relpath path) ip || pyStartsWith path ip ||
      fnmatch path ip || (pySplit path '/').contains ip

/-- Python `dirnames.remove(n)`: drop the first entry named `n`, or `none`
for the `ValueError` raised when no entry matches. -/
def removeFirstName (n : String) : List (String × DirTree) → Option (List (String × DirTree))
  | [] => none
  | p :: rest =>
    if p.1 = n then some rest
    else (removeFirstName n rest).map (fun l => p :: l)

/-- Embeds lines 797-801 of `all_filenames_in_dir`: the loop
`for ignore in ignore_paths: dirnames.remove(ignore)` runs inside a single
`try` whose handler catches the `ValueError`; so the rules are removed in
list order and the first rule not present among the subdirectory names
aborts the whole loop, returning the removals made so far. -/
def pruneDirs : List String → List (String × DirTree) → List (String × DirTree)
  | [], sds => sds
  | i :: rest, sds =>
    match removeFirstName i sds with
    | some sds2 => pruneDirs rest sds2
    | none => sds

/-- Successful removal of a whole prefix of ignore rules from a
subdirectory list (`some` exactly when every rule in turn names a present
subdirectory); used to state where `pruneDirs` stops pruning. -/
def removeAllNames : List String → List (String × DirTree) →
    Option (List (String × DirTree))
  | [], sds => some sds
  | i :: rest, sds =>
    match removeFirstName i sds with
    | some sds2 => removeAllNames rest sds2
    | none => none

/-- Recursive body of the `os.walk` loop in `all_filenames_in_dir`
(lines 796-808), fuelled so that it is kernel-computable: each visited
directory prunes its subdirectory list via `pruneDirs`, skips its own files
when `should_ignore_path` holds for the directory path, keeps the files the
`identify` classifier tags as text, and descends only into the surviving
subdirectories.  Each recursive call descends into a strict subtree, so
fuel `sizeOf tree` (used by `walkFiles`) is never exhausted. -/
def walkFilesF (env : Env) (ignore_paths : List String) : Nat → String → DirTree → List String
  | 0, _, _ => []
  | fuel + 1, root, .mk files sds =>
    let here :=
      if should_ignore_path env root ignore_paths then []
      else (files.map (fun f => root ++ "/" ++ f)).filter env.isText
    here ++ ((pruneDirs ignore_paths sds).map
      (fun sd => walkFilesF env ignore_paths fuel (root ++ "/" ++ sd.1) sd.2)).flatten

/-- The file set produced by walking `env.tree` from `env.cwd`. -/
def walkFiles (env : Env) (ignore_paths : List String) : List String :=
  walkFilesF env ignore_paths env.walkFuel env.cwd env.tree

/-- Directory paths `os.walk` actually visits (descends into) under the
same pruning as `walkFilesF`; used to state the directory-pruning claims.
A directory pruned from `dirnames` never appears here. -/
def walkRootsF (ignore_paths : List String) : Nat → String → DirTree → List String
  | 0, _, _ => []
  | fuel + 1, root, .mk _ sds =>
    root :: ((pruneDirs ignore_paths sds).map
      (fun sd => walkRootsF ignore_paths fuel (root ++ "/" ++ sd.1) sd.2)).flatten

/-- Visited directories of a walk of `env.tree` from `env.cwd`. -/
def walkRoots (env : Env) (ignore_paths : List String) : List String :=
  walkRootsF ignore_paths env.walkFuel env.cwd env.tree

/-- Embeds `LinterRunner.all_filenames_in_dir` (lines 792-809) as called by
`linters_to_run` with `path = os.getcwd()`.  When `ignore_paths` is `None`
(`none`), the loop header `for ignore in ignore_paths` raises a `TypeError`
which no handler in the module catches (the surrounding `try` only catches
`ValueError`). -/
def all_filenames_in_dir (env : Env) (ignore_paths : Option (List String)) :
    Except PyErr (List String) :=
  match ignore_paths with
  | none => .error PyErr.typeError
  | some l => .ok (walkFiles env l)

/-- Embeds the module-level `PATTERNS` dict (lines 58-76): glob patterns per
language tag. -/
def PATTERNS : List (String × List String) :=
  [("all", ["*.*"]),
   ("ansible", ["*.yaml", "*.yml"]),
   ("docker", ["*Dockerfile", "*.dockerfile"]),
   ("gherkin", ["*.feature"]),
   ("go", ["*.go"]),
   ("groovy", ["*.groovy", "Jenkinsfile", "jenkinsfile"]),
   ("java", ["*.java"]),
   ("javascript", ["*.js"]),
   ("json", ["*.json"]),
   ("markdown", ["*.md"]),
   ("python", ["*.py"]),
   ("shell", ["*.sh", "*.zsh", "*.ksh", "*.bsh", "*.csh", "*.bash"]),
   ("stylus", ["*.styl"]),
   ("robotframework", ["*.robot"]),
   ("rst", ["*.rst"]),
   ("text", ["*.md", "*.txt", "*.rtf", "*.html", "*.tex", "*.markdown"]),
   ("yaml", ["*.yaml", "*.yml"])]

/-- The fields of one `LINTERS` registry entry that the selector
(`linters_to_run`) reads.  The command-line fields (`install`, `help`,
`run`, `rundefault`) and the parser reference are process-environment
dependent external data never read by the selector; the run model below
carries them as explicit per-tool data instead.  A `config.get` of a
missing key yields `None`, which is falsy, so the absent
`run_if_dotfile_in_root` key is modelled as `false`. -/
structure SelLinterConfig where
  dotfiles : List String
  language : String
  autorun : Bool
  run_per_file : Bool
  run_if_dotfile_in_root : Bool
deriving DecidableEq

/-- Embeds the selector-relevant fields of the module-level `LINTERS` dict
(lines 108-649), in its literal (insertion) order, which is the iteration
order of `LINTERS.items()`. -/
def LINTERS : List (String × SelLinterConfig) :=
  [("ansible-lint", ⟨[".ansible-lint"], "ansible", true, true, false⟩),
   ("bandit", ⟨["bandit.yaml"], "python", true, false, false⟩),
   ("codenarc", ⟨["codenarc.xml"], "groovy", true, false, false⟩),
   ("detect-secrets", ⟨[], "all", true, false, false⟩),
   ("dockerfile_lint", ⟨[], "docker", true, true, false⟩),
   ("eclint", ⟨[".editorconfig"], "all", false, true, false⟩),
   ("eslint", ⟨[".eslintrc.yml", ".eslintrc.yaml", ".eslintignore", ".eslintrc",
     ".eslintrc.js", ".eslintrc.json"], "javascript", true, false, false⟩),
   ("gherkin-lint", ⟨[".gherkin-lintrc"], "gherkin", true, false, false⟩),
   ("gometalinter.v2", ⟨[".gometalinter.json"], "go", false, false, false⟩),
   ("gometalinter", ⟨[".gometalinter.json"], "go", true, false, false⟩),
   ("jscs", ⟨[".jscsrc", ".jscs.json"], "javascript", false, false, false⟩),
   ("jshint", ⟨[".jshintrc"], "javascript", false, false, false⟩),
   ("jsonlint", ⟨[], "json", true, true, false⟩),
   ("markdownlint-cli", ⟨[".markdownlintrc", ".markdownlint.json"], "markdown",
     true, false, false⟩),
   ("megacheck", ⟨[], "go", false, false, false⟩),
   ("pmd", ⟨[], "java", true, false, false⟩),
   ("proselint", ⟨[], "text", true, true, false⟩),
   ("prospector", ⟨[".prospector.yaml"], "python", true, false, false⟩),
   ("robotframework-lint", ⟨[".rflint"], "robotframework", true, true, false⟩),
   ("restructuredtext_lint", ⟨[], "rst", true, true, false⟩),
   ("shellcheck", ⟨[], "shell", true, true, false⟩),
   ("spotbugs-maven-plugin", ⟨[], "java", true, false, false⟩),
   ("stylint", ⟨[".stylintrc"], "stylus", true, false, false⟩),
   ("yamllint", ⟨[".yamllint"], "yaml", true, false, false⟩)]

/-- Embeds `LinterRunner.dotfiles_exist` (lines 821-825) at
`path = os.getcwd()`: some declared dotfile, stripped, occurs in the root
listing. -/
def dotfiles_exist (env : Env) (c : SelLinterConfig) : Bool :=
  c.dotfiles.any fun d => pyStrip d ∈ env.rootListing

/-- Embeds `LinterRunner.should_autorun` (lines 812-819):
`patterns = PATTERNS.get(language)` is fetched first; when the tool declares
`autorun`, the patterns are iterated (`fnmatch.filter` truthiness is
non-emptiness), which raises a `TypeError` if the language tag is absent
from `PATTERNS`; when `autorun` is false the patterns are never iterated
and the result is `False`. -/
def should_autorun (c : SelLinterConfig) (filenames : List String) : Except PyErr Bool :=
  match PATTERNS.lookup c.language with
  | none => if c.autorun then .error PyErr.typeError else .ok false
  | some pats =>
    .ok (c.autorun && pats.any fun pat => filenames.any fun f => fnmatch f pat)

/-- Embeds lines 756-763 of `linters_to_run`: the
`xs.extend(xs[0].split(","))` applied to each of the enabled and disabled
inputs, with `IndexError` on an empty list caught and ignored (list inputs
can never raise the also-caught `AttributeError`). -/
def mergeCsv : List String → List String
  | [] => []
  | x :: xs => (x :: xs) ++ pySplit x ','

/-- Python `set.add` on a membership-ordered list model of a `set`: adding
an element already present leaves the collection unchanged. -/
def addToSet (s : List String) (x : String) : List String :=
  if x ∈ s then s else s ++ [x]

/-- Language-map update of one iteration of the first autorun loop of
`linters_to_run` (lines 769-780, the `dotfilefound` dict modelled as a list
of language tags): a tool whose dotfiles exist records its language. -/
def firstPassDff (env : Env) (nc : String × SelLinterConfig)
    (dff : List String) : List String :=
  if dotfiles_exist env nc.2 then addToSet dff nc.2.language else dff

/-- Selected-set update of one first-pass iteration, the two guarded
`linters.add(linter)` calls of lines 773-780 in order: the
`run_if_dotfile_in_root` addition (guarded by the dotfile existing and the
tool not being disabled) and then the cascade addition (guarded by the
language being recorded in the already-updated `dotfilefound` map, the tool
declaring `autorun`, and the tool not being disabled). -/
def firstPassLin (env : Env) (disabled : List String)
    (nc : String × SelLinterConfig) (st : List String × List String) :
    List String :=
  let lin1 :=
    if dotfiles_exist env nc.2 ∧ nc.2.run_if_dotfile_in_root ∧ nc.1 ∉ disabled then
      addToSet st.2 nc.1
    else st.2
  if nc.2.language ∈ firstPassDff env nc st.1 ∧ nc.2.autorun ∧ nc.1 ∉ disabled then
    addToSet lin1 nc.1
  else lin1

/-- One iteration of the first autorun loop: record the language when the
dotfiles exist, and update the selected set per `firstPassLin`. -/
def firstPassStep (env : Env) (disabled : List String)
    (nc : String × SelLinterConfig) (st : List String × List String) :
    List String × List String :=
  (firstPassDff env nc st.1, firstPassLin env disabled nc st)

/-- Embeds the first `for linter, config in LINTERS.items()` loop of the
autorun branch of `linters_to_run` (lines 769-780), folding
`firstPassStep` over the registry. -/
def autorunFirstPass (env : Env) (disabled : List String) :
    List (String × SelLinterConfig) → List String × List String →
      List String × List String
  | [], st => st
  | nc :: rest, st =>
    autorunFirstPass env disabled rest (firstPassStep env disabled nc st)

/-- Embeds the second `for linter, config in LINTERS.items()` loop of the
autorun branch of `linters_to_run` (lines 782-788): a tool is added when it
is named in `enabled`, or (short-circuiting, so `should_autorun` is not
evaluated otherwise) when no dotfile was found for its language and
`should_autorun` holds — in either case only if it is not disabled. -/
def secondPassStep (enabled disabled dff filenames : List String)
    (nc : String × SelLinterConfig) (acc : List String) :
    Except PyErr (List String) :=
  match (if nc.1 ∈ enabled then .ok true
         else if nc.2.language ∈ dff then .ok false
         else should_autorun nc.2 filenames : Except PyErr Bool) with
  | .error e => .error e
  | .ok cond => .ok (if cond ∧ nc.1 ∉ disabled then addToSet acc nc.1 else acc)

/-- The second autorun loop over the registry, folding `secondPassStep` in
the `Except` monad. -/
def autorunSecondPass (enabled disabled dff filenames : List String) :
    List (String × SelLinterConfig) → List String → Except PyErr (List String)
  | [], acc => .ok acc
  | nc :: rest, acc =>
    match secondPassStep enabled disabled dff filenames nc acc with
    | .error e => .error e
    | .ok acc2 => autorunSecondPass enabled disabled dff filenames rest acc2

/-- Embeds `LinterRunner.linters_to_run` (lines 750-789).  The enabled and
disabled inputs are first comma-merged (`mergeCsv`).  When `autorun` is
false, each registry tool named in the merged enabled list is selected —
the disabled list is not consulted on this branch.  When `autorun` is true,
the two registry passes run, separated by the filesystem walk (which
raises `TypeError` when `ignore_paths` is `None`). -/
def linters_to_run (env : Env) (autorun : Bool) (ignore_paths : Option (List String))
    (enabled_linters disabled_linters : List String) : Except PyErr (List String) :=
  let enabled := mergeCsv enabled_linters
  let disabled := mergeCsv disabled_linters
  if !autorun then
    .ok (LINTERS.foldl
      (fun acc lc => if lc.1 ∈ enabled then addToSet acc lc.1 else acc) [])
  else
    let st := autorunFirstPass env disabled LINTERS ([], [])
    match all_filenames_in_dir env ignore_paths with
    | .error e => .error e
    | .ok filenames =>
      autorunSecondPass enabled disabled st.1 filenames LINTERS st.2

/-- Normalized diagnostic `(path, position, text)`.  The `Messages`
accumulator lives in `inlineplz/message.py`, outside the orchestration
module; the spec's Diagnostic is an immutable value equal by full tuple. -/
abbrev Msg := String × Nat × String

/-- One call received by the process executor (`run_command`) or one check
of the cooperative stop signal, distinguished by call site:
`probeCmd` is the help/version probe in `installed` (line 859),
`installCmd` an install command run by `install_linter` (line 837),
`trustedCmd` a bootstrap command run by the body of `install_trusted`
(line 851), `toolRun` the execution of a tool's own command(s)
(lines 919-924), `stopCheck` the `system.should_stop()` query (line 907). -/
inductive Event where
  | stopCheck (iter : Nat)
  | probeCmd (cmd : List String)
  | installCmd (cmd : List String)
  | toolRun (name : String)
  | trustedCmd (cmd : List String)
deriving DecidableEq

/-- Per-tool command data read by the installer: the tool's ordered
`install` command-lines and its `help` probe command-line (registry fields
`install` and `help`; their concrete values contain `sys.executable` and
vendored absolute paths, so the run model carries them as explicit data). -/
structure ToolCfg where
  install : List (List String)
  help : List String

/-- External behaviour of one run, from the orchestrator's point of view:
`installed k` is the exit-status-zero test of the `k`-th help probe of the
run; `installCrash n` says whether `install_linter` for tool `n` raises an
exception that is not the locally caught `OSError` (caught only by the
per-tool handler at line 925); `exec n` is the outcome of running tool `n`
(whole-project output string or per-file result list, abstracted to the
final output value, `Except.error` when the dispatch raises); `parse s` is
the tool's parser on raw output `s` (`Except.error` when parsing raises);
`stop k` is the value of the cooperative stop signal at its `k`-th check. -/
structure Oracles where
  installed : Nat → Bool
  installCrash : String → Bool
  exec : String → Except Unit String
  parse : String → Except Unit (Finset Msg)
  stop : Nat → Bool

/-- State threaded through `run_linters`: the accumulated message set, the
`previous_install_commands` ledger, the number of help probes made so far,
the number of completed outer-loop iterations, and the event trace. -/
structure RunState where
  msgs : Finset Msg
  ledger : List (List String)
  probes : Nat
  iter : Nat
  trace : List Event

/-- Embeds `LinterRunner.install_linter` (lines 827-845): for each install
command-line in order, skip it when already in the ledger; otherwise record
it in the ledger first, then probe installedness with the tool's help
command; a successful probe returns from the whole function, a failed one
runs the install command-line (its `OSError` is caught and logged, so the
loop continues either way). -/
def installLoop (o : Oracles) (helpCmd : List String) :
    List (List String) → List (List String) → Nat → List Event →
      List (List String) × Nat × List Event
  | [], ledger, k, tr => (ledger, k, tr)
  | cmd :: rest, ledger, k, tr =>
    if cmd ∈ ledger then installLoop o helpCmd rest ledger k tr
    else
      let tr2 := tr ++ [Event.probeCmd helpCmd]
      if o.installed k then (ledger ++ [cmd], k + 1, tr2)
      else installLoop o helpCmd rest (ledger ++ [cmd]) (k + 1)
        (tr2 ++ [Event.installCmd cmd])

/-- Condition of line 917: `(install or autorun) and config.get("install")`
(an empty install list is falsy). -/
def installAttempted (install autorun : Bool) (cfg : ToolCfg) : Bool :=
  (install || autorun) && !cfg.install.isEmpty

/-- Raw output of one tool in the run loop (lines 913-928): `output` starts
as the empty string and keeps that value when the install phase raises or
the dispatch raises (the per-tool `except Exception` handler at line 925
catches either), so a failed tool always reaches the parse phase with falsy
output. -/
def toolOutput (o : Oracles) (install autorun : Bool) (name : String) (cfg : ToolCfg) :
    String :=
  if installAttempted install autorun cfg && o.installCrash name then ""
  else
    match o.exec name with
    | .error _ => ""
    | .ok out => out

/-- Embeds the set comprehension of lines 940-944: drop each parsed message
whose path `should_ignore_path` matches, and prepend `"<linter>: "` to the
text of the survivors. -/
def filteredPrefixed (env : Env) (ign : List String) (name : String)
    (parsed : Finset Msg) : Finset Msg :=
  (parsed.filter fun m => should_ignore_path env m.1 ign = false).image
    fun m => (m.1, m.2.1, name ++ ": " ++ m.2.2)

/-- The parse-phase filter with the `ignore_paths` argument as passed by the
caller: when it is `None`, evaluating the comprehension calls
`should_ignore_path(msg[0], None)` and raises a `TypeError` — unless the
parsed set is empty, in which case the generator body never runs. -/
def prefixedMsgs (env : Env) (ign : Option (List String)) (name : String)
    (parsed : Finset Msg) : Except Unit (Finset Msg) :=
  match ign with
  | some l => .ok (filteredPrefixed env l name parsed)
  | none => if parsed = ∅ then .ok ∅ else .error ()

/-- Message contribution of one tool (lines 936-952): nothing when the
output is falsy, when the parser raises, or when the ignore filtering
raises; otherwise the filtered, prefixed parse result.  Exceptions in this
phase are caught by the handler at line 949 and yield zero messages. -/
def toolMsgs (env : Env) (o : Oracles) (ign : Option (List String))
    (install autorun : Bool) (name : String) (cfg : ToolCfg) : Finset Msg :=
  let out := toolOutput o install autorun name cfg
  if out = "" then ∅
  else
    match o.parse out with
    | .error _ => ∅
    | .ok parsed =>
      match prefixedMsgs env ign name parsed with
      | .error _ => ∅
      | .ok fm => fm

/-- Installer phase of one iteration of the tool loop (lines 917-918): run
`install_linter` when installation is enabled, the tool has install
commands, and the install phase does not raise; otherwise the ledger,
probe count and trace are unchanged. -/
def installPhase (o : Oracles) (install autorun : Bool)
    (nc : String × ToolCfg) (st : RunState) :
    List (List String) × Nat × List Event :=
  if installAttempted install autorun nc.2 && !o.installCrash nc.1 then
    installLoop o nc.2.help nc.2.install st.ledger st.probes st.trace
  else (st.ledger, st.probes, st.trace)

/-- Trace extension of the dispatch (lines 919-924): when the install phase
raised, the dispatch is never reached; otherwise a successful dispatch
records the tool execution. -/
def execTrace (o : Oracles) (install autorun : Bool) (nc : String × ToolCfg)
    (tr : List Event) : List Event :=
  if installAttempted install autorun nc.2 && o.installCrash nc.1 then tr
  else
    match o.exec nc.1 with
    | .ok _ => tr ++ [Event.toolRun nc.1]
    | .error _ => tr

/-- One iteration of the tool loop, combining the install phase, the
dispatch trace and the message merge. -/
def toolStep (env : Env) (o : Oracles) (install autorun : Bool)
    (ign : Option (List String)) (st : RunState) (nc : String × ToolCfg) : RunState :=
  let inst := installPhase o install autorun nc st
  { msgs := st.msgs ∪ toolMsgs env o ign install autorun nc.1 nc.2,
    ledger := inst.1, probes := inst.2.1, iter := st.iter,
    trace := execTrace o install autorun nc inst.2.2 }

/-- Embeds the outer loop of `run_linters` (lines 904-956): before each
tool, query the cooperative stop signal (`system.should_stop()`, an
environment-owned boolean modelled as an oracle indexed by the query
count); if it is set, return immediately with the messages accumulated so
far; otherwise process the tool and continue. -/
def runLoop (env : Env) (o : Oracles) (install autorun : Bool)
    (ign : Option (List String)) : List (String × ToolCfg) → RunState → RunState
  | [], st => st
  | nc :: rest, st =>
    let st1 : RunState := { st with trace := st.trace ++ [Event.stopCheck st.iter] }
    if o.stop st.iter then st1
    else
      runLoop env o install autorun ign rest
        { toolStep env o install autorun ign st1 nc with iter := st.iter + 1 }

/-- Fresh state at the start of one run: `Messages()` empty, the
`previous_install_commands` ledger empty (set in `LinterRunner.__init__`,
line 655), no probes, no iterations, no events. -/
def initRunState : RunState := ⟨∅, [], 0, 0, []⟩

/-- Embeds the module-level `TRUSTED_INSTALL` list (lines 79-99);
`sys.executable` is the `pyExe` parameter. -/
def TRUSTED_INSTALL (pyExe : String) : List (List String) :=
  [["bundle", "install"],
   ["cabal", "update"],
   ["cabal", "install"],
   ["glide", "install", "--strip-vendor"],
   ["godep", "get"],
   ["godep", "restore"],
   ["dep", "ensure"],
   ["dep", "prune"],
   ["govendor", "sync"],
   ["go", "get", "-t", "-v", "./..."],
   ["yarn", "install", "--non-interactive"],
   ["npm", "install"],
   [pyExe, "setup.py", "develop"],
   [pyExe, "-m", "pip", "install", "."],
   [pyExe, "-m", "pip", "install", "-e", "."],
   [pyExe, "-m", "pip", "install", "-r", "requirements.txt"],
   [pyExe, "-m", "pip", "install", "-r", "requirements_dev.txt"],
   [pyExe, "-m", "pip", "install", "-r", "requirements-dev.txt"],
   ["pipenv", "install"]]

/-- Executor calls the body of `install_trusted` (lines 847-855) performs
when it is awaited: every `TRUSTED_INSTALL` command-line in order, each
`OSError` caught and logged. -/
def install_trusted_events (pyExe : String) : List Event :=
  (TRUSTED_INSTALL pyExe).map Event.trustedCmd

/-- Recognizer for trusted-install executor calls. -/
def Event.isTrusted : Event → Bool
  | .trustedCmd _ => true
  | _ => false

/-- Embeds `LinterRunner.run_linters` (lines 890-956).  `cleanup` and
`performance_hacks` only touch external filesystem/npm state.  Line 902-903
reads `if trusted and (install or autorun): self.install_trusted()`: the
coroutine returned by `install_trusted()` is not awaited, so its body never
runs and the branch performs no executor calls — the modelled state is
unchanged whatever `trusted` is.  Then the tool set is resolved by
`linters_to_run` (a raised `TypeError` propagates: the call is outside
every `try` in `run_linters`), each selected name is looked up to its
command data, and the loop runs from the fresh state.  The result is the
final message set (`messages.get_messages()`) together with the trace of
executor calls and stop checks. -/
def run_linters (env : Env) (o : Oracles) (cfgOf : String → ToolCfg)
    (install autorun : Bool) (ign : Option (List String))
    (enabled disabled : List String) (trusted : Bool) :
    Except PyErr (Finset Msg × List Event) :=
  match linters_to_run env autorun ign enabled disabled with
  | .error e => .error e
  | .ok sel =>
    let fin := runLoop env o install autorun ign
      (sel.map fun n => (n, cfgOf n)) initRunState
    .ok (fin.msgs, fin.trace)

/-- Trace component of a finished run (`[]` when the run aborted with an
exception before the loop started). -/
def traceOf : Except PyErr (Finset Msg × List Event) → List Event
  | .ok p => p.2
  | .error _ => []

/-! ### Concrete environments and behaviours used in closed statements -/

/-- Trivial project: empty working directory. -/
def envTriv : Env := ⟨".", [], DirTree.mk [] [], fun _ => true, id, 1⟩

/-- Empty directory node. -/
def emptyDir : DirTree := DirTree.mk [] []

/-- Working directory with a single subdirectory `b` and no files. -/
def envSubdirB : Env :=
  ⟨".", [], DirTree.mk [] [("b", emptyDir)], fun _ => true, id, 2⟩

/-- Number of times the trace records `cmd` being executed as an install
command-line (the `run_command(install_cmd, ...)` call site of
`install_linter`). -/
def countInstall (cmd : List String) (tr : List Event) : Nat :=
  tr.countP fun e => decide (e = Event.installCmd cmd)

/-- Tool command data with no install commands and a help probe. -/
def toolCfgA : ToolCfg := ⟨[], ["tool-a", "-h"]⟩

/-- Behaviour where the dispatch of tool `b` raises, every other tool
produces output `"out"` parsing to one diagnostic, and the stop signal is
never set. -/
def oFailB : Oracles :=
  ⟨fun _ => false, fun _ => false,
   fun n => if n = "b" then .error () else .ok "out",
   fun _ => .ok {("f.py", 1, "msg")}, fun _ => false⟩

/-- Behaviour where every tool runs successfully and the stop signal is
first set at its second check (index 1). -/
def oStopAtOne : Oracles :=
  ⟨fun _ => true, fun _ => false, fun _ => .ok "out",
   fun _ => .ok ∅, fun i => i == 1⟩

/-- Project root containing exactly `.editorconfig` — the marker file of
`eclint` (language tag `"all"`), which `detect-secrets` (also `"all"`,
`autorun`, no dotfiles of its own, earlier in registry order) shares. -/
def envEditorconfig : Env :=
  ⟨".", [".editorconfig"], DirTree.mk [".editorconfig"] [], fun _ => true, id, 1⟩

/-- Project root containing exactly `.gometalinter.json` — the marker file
declared by both `gometalinter.v2` (registry position 8, `autorun` false)
and `gometalinter` (registry position 9, `autorun` true). -/
def envGometalinter : Env :=
  ⟨".", [".gometalinter.json"], DirTree.mk [] [], fun _ => true, id, 1⟩

/-! ### Lemmas about the set model and the selector passes -/

/-- Membership in the Python-set model: `addToSet` adds exactly `x`. -/
theorem mem_addToSet {s : List String} {x y : String} :
    y ∈ addToSet s x ↔ y ∈ s ∨ y = x := by
  unfold addToSet
  by_cases h : x ∈ s
  · simp only [if_pos h]
    constructor
    · exact Or.inl
    · rintro (hy | rfl)
      · exact hy
      · exact h
  · simp [if_neg h]


/-- The language map after one first-pass step: the tool's language is
recorded exactly when its dotfiles exist. -/
theorem firstPassDff_of_dotfiles (env : Env) (nc : String × SelLinterConfig)
    (dff : List String) (h : dotfiles_exist env nc.2 = true) :
    nc.2.language ∈ firstPassDff env nc dff := by
  unfold firstPassDff
  rw [if_pos h]
  exact mem_addToSet.mpr (Or.inr rfl)

/-- Recorded languages survive a first-pass step. -/
theorem firstPassDff_mono (env : Env) (nc : String × SelLinterConfig)
    {dff : List String} {x : String} (hx : x ∈ dff) :
    x ∈ firstPassDff env nc dff := by
  unfold firstPassDff
  split_ifs
  · exact mem_addToSet.mpr (Or.inl hx)
  · exact hx

/-- Selected tools survive a first-pass step. -/
theorem firstPassLin_mono (env : Env) (disabled : List String)
    (nc : String × SelLinterConfig) (st : List String × List String) {y : String}
    (hy : y ∈ st.2) : y ∈ firstPassLin env disabled nc st := by
  simp only [firstPassLin]
  split_ifs <;> (try simp only [mem_addToSet]) <;> tauto

/-- A first-pass step never adds a disabled tool. -/
theorem firstPassLin_not_mem (env : Env) (disabled : List String)
    (nc : String × SelLinterConfig) (st : List String × List String) {l : String}
    (hd : l ∈ disabled) (hst : l ∉ st.2) :
    l ∉ firstPassLin env disabled nc st := by
  have key : ∀ s : List String, l ∉ s → nc.1 ∉ disabled → l ∉ addToSet s nc.1 := by
    intro s hs hnd hmem
    rcases mem_addToSet.mp hmem with h | rfl
    · exact hs h
    · exact hnd hd
  simp only [firstPassLin]
  split_ifs with h1 h2 h3
  · exact key _ (key _ hst h1.2.2) h2.2.2
  · exact key _ hst h1.2.2
  · exact key _ hst h3.2.2
  · exact hst

/-- Cascade within one iteration: a tool whose language is already recorded
when its iteration runs, which declares autorun and is not disabled, is
selected by its own first-pass step. -/
theorem firstPassLin_cascade (env : Env) (disabled : List String)
    (nc : String × SelLinterConfig) (st : List String × List String)
    (hlang : nc.2.language ∈ st.1) (ha : nc.2.autorun = true)
    (hd : nc.1 ∉ disabled) :
    nc.1 ∈ firstPassLin env disabled nc st := by
  simp only [firstPassLin]
  rw [if_pos ⟨firstPassDff_mono env nc hlang, ha, hd⟩]
  exact mem_addToSet.mpr (Or.inr rfl)

/-- The first pass processes an appended registry segment sequentially. -/
theorem autorunFirstPass_append (env : Env) (disabled : List String)
    (xs ys : List (String × SelLinterConfig)) (st : List String × List String) :
    autorunFirstPass env disabled (xs ++ ys) st =
      autorunFirstPass env disabled ys (autorunFirstPass env disabled xs st) := by
  induction xs generalizing st with
  | nil => rfl
  | cons nc rest ih =>
    simp only [List.cons_append, autorunFirstPass]
    exact ih _

/-- Languages recorded before part of the first pass stay recorded after it. -/
theorem autorunFirstPass_dff_mono (env : Env) (disabled : List String) :
    ∀ (list : List (String × SelLinterConfig)) (st : List String × List String)
      {x : String}, x ∈ st.1 → x ∈ (autorunFirstPass env disabled list st).1 := by
  intro list
  induction list with
  | nil => intro st x hx; exact hx
  | cons nc rest ih =>
    intro st x hx
    simp only [autorunFirstPass]
    exact ih _ (firstPassDff_mono env nc hx)

/-- Tools selected before part of the first pass stay selected after it. -/
theorem autorunFirstPass_lin_mono (env : Env) (disabled : List String) :
    ∀ (list : List (String × SelLinterConfig)) (st : List String × List String)
      {x : String}, x ∈ st.2 → x ∈ (autorunFirstPass env disabled list st).2 := by
  intro list
  induction list with
  | nil => intro st x hx; exact hx
  | cons nc rest ih =>
    intro st x hx
    simp only [autorunFirstPass]
    exact ih _ (firstPassLin_mono env disabled nc st hx)

/-- The first pass never selects a disabled tool. -/
theorem autorunFirstPass_not_mem (env : Env) (disabled : List String) :
    ∀ (list : List (String × SelLinterConfig)) (st : List String × List String)
      {l : String}, l ∈ disabled → l ∉ st.2 →
      l ∉ (autorunFirstPass env disabled list st).2 := by
  intro list
  induction list with
  | nil => intro st l _ h; exact h
  | cons nc rest ih =>
    intro st l hd hst
    simp only [autorunFirstPass]
    exact ih _ hd (firstPassLin_not_mem env disabled nc st hd hst)

/-- Marker-cascade in the first pass: when a marker-declaring tool precedes
(in registry iteration order) an autorun, non-disabled tool of the same
language and its marker exists, the later tool is selected. -/
theorem autorunFirstPass_cascade (env : Env) (disabled : List String)
    (l1 l2 l3 : List (String × SelLinterConfig)) (b a : String)
    (bc ac : SelLinterConfig) (hb : dotfiles_exist env bc = true)
    (hlang : ac.language = bc.language) (ha : ac.autorun = true)
    (hd : a ∉ disabled) :
    a ∈ (autorunFirstPass env disabled (l1 ++ (b, bc) :: l2 ++ (a, ac) :: l3)
      ([], [])).2 := by
  rw [autorunFirstPass_append]
  simp only [autorunFirstPass]
  rw [autorunFirstPass_append]
  simp only [autorunFirstPass]
  apply autorunFirstPass_lin_mono
  apply firstPassLin_cascade env disabled (a, ac) _ _ ha hd
  apply autorunFirstPass_dff_mono
  show ac.language ∈ firstPassDff env (b, bc) _
  rw [hlang]
  exact firstPassDff_of_dotfiles env (b, bc) _ hb

/-- Inversion for one second-pass step: a successful step returns the
accumulator, possibly extended with the (non-disabled) tool itself. -/
theorem secondPassStep_ok_inv {enabled disabled dff filenames : List String}
    {nc : String × SelLinterConfig} {acc acc2 : List String}
    (h : secondPassStep enabled disabled dff filenames nc acc = .ok acc2) :
    ∃ cond : Bool,
      acc2 = if cond ∧ nc.1 ∉ disabled then addToSet acc nc.1 else acc := by
  unfold secondPassStep at h
  rcases hE : (if nc.1 ∈ enabled then Except.ok true
      else if nc.2.language ∈ dff then Except.ok false
      else should_autorun nc.2 filenames : Except PyErr Bool) with ⟨e⟩ | ⟨cond⟩ <;>
    rw [hE] at h
  · cases h
  · exact ⟨cond, by cases h; rfl⟩

/-- Tools already accumulated survive a successful second-pass step. -/
theorem secondPassStep_mono {enabled disabled dff filenames : List String}
    {nc : String × SelLinterConfig} {acc acc2 : List String}
    (h : secondPassStep enabled disabled dff filenames nc acc = .ok acc2)
    {x : String} (hx : x ∈ acc) : x ∈ acc2 := by
  obtain ⟨cond, rfl⟩ := secondPassStep_ok_inv h
  split_ifs
  · exact mem_addToSet.mpr (Or.inl hx)
  · exact hx

/-- A second-pass step never adds a disabled tool. -/
theorem secondPassStep_not_mem {enabled disabled dff filenames : List String}
    {nc : String × SelLinterConfig} {acc acc2 : List String}
    (h : secondPassStep enabled disabled dff filenames nc acc = .ok acc2)
    {l : String} (hd : l ∈ disabled) (hacc : l ∉ acc) : l ∉ acc2 := by
  obtain ⟨cond, rfl⟩ := secondPassStep_ok_inv h
  split_ifs with hg
  · intro hmem
    rcases mem_addToSet.mp hmem with hm | rfl
    · exact hacc hm
    · exact hg.2 hd
  · exact hacc

/-- A second-pass step succeeds whenever the tool's language tag occurs in
`PATTERNS` (so `should_autorun` cannot raise). -/
theorem secondPassStep_ok (enabled disabled dff filenames : List String)
    (nc : String × SelLinterConfig) (acc : List String)
    (hp : (PATTERNS.lookup nc.2.language).isSome) :
    ∃ acc2, secondPassStep enabled disabled dff filenames nc acc = .ok acc2 := by
  unfold secondPassStep
  by_cases h1 : nc.1 ∈ enabled
  · rw [if_pos h1]
    exact ⟨_, rfl⟩
  · rw [if_neg h1]
    by_cases h2 : nc.2.language ∈ dff
    · rw [if_pos h2]
      exact ⟨_, rfl⟩
    · rw [if_neg h2]
      unfold should_autorun
      rcases hlk : PATTERNS.lookup nc.2.language with _ | pats
      · rw [hlk] at hp; cases hp
      · exact ⟨_, rfl⟩

/-- Tools accumulated before the second pass survive it. -/
theorem autorunSecondPass_mono (enabled disabled dff filenames : List String) :
    ∀ (list : List (String × SelLinterConfig)) (acc r : List String),
      autorunSecondPass enabled disabled dff filenames list acc = .ok r →
      ∀ {x : String}, x ∈ acc → x ∈ r := by
  intro list
  induction list with
  | nil =>
    intro acc r h x hx
    cases h
    exact hx
  | cons nc rest ih =>
    intro acc r h x hx
    simp only [autorunSecondPass] at h
    rcases hs : secondPassStep enabled disabled dff filenames nc acc with ⟨e⟩ | ⟨acc2⟩ <;>
      rw [hs] at h
    · cases h
    · exact ih acc2 r h (secondPassStep_mono hs hx)

/-- The second pass never adds a disabled tool. -/
theorem autorunSecondPass_not_mem (enabled disabled dff filenames : List String) :
    ∀ (list : List (String × SelLinterConfig)) (acc r : List String),
      autorunSecondPass enabled disabled dff filenames list acc = .ok r →
      ∀ {l : String}, l ∈ disabled → l ∉ acc → l ∉ r := by
  intro list
  induction list with
  | nil =>
    intro acc r h l _ hacc
    cases h
    exact hacc
  | cons nc rest ih =>
    intro acc r h l hd hacc
    simp only [autorunSecondPass] at h
    rcases hs : secondPassStep enabled disabled dff filenames nc acc with ⟨e⟩ | ⟨acc2⟩ <;>
      rw [hs] at h
    · cases h
    · exact ih acc2 r h hd (secondPassStep_not_mem hs hd hacc)

/-- The second pass succeeds when every processed tool's language tag occurs
in `PATTERNS`. -/
theorem autorunSecondPass_ok (enabled disabled dff filenames : List String) :
    ∀ (list : List (String × SelLinterConfig)) (acc : List String),
      (∀ nc ∈ list, (PATTERNS.lookup nc.2.language).isSome) →
      ∃ r, autorunSecondPass enabled disabled dff filenames list acc = .ok r := by
  intro list
  induction list with
  | nil => intro acc _; exact ⟨acc, rfl⟩
  | cons nc rest ih =>
    intro acc h
    obtain ⟨acc2, hs⟩ := secondPassStep_ok enabled disabled dff filenames nc acc
      (h nc (List.mem_cons_self nc rest))
    obtain ⟨r, hr⟩ := ih acc2 (fun e he => h e (List.mem_cons_of_mem nc he))
    refine ⟨r, ?_⟩
    simp only [autorunSecondPass]
    rw [hs]
    exact hr

/-- Every registry tool has a language tag present in `PATTERNS`. -/
theorem LINTERS_patterns_some :
    ∀ nc ∈ LINTERS, (PATTERNS.lookup nc.2.language).isSome := by decide

/-- The autorun selector succeeds (returns `Except.ok`) whenever an actual
ignore-path list is supplied. -/
theorem linters_to_run_autorun_ok (env : Env) (ips en dis : List String) :
    ∃ r, linters_to_run env true (some ips) en dis = .ok r := by
  obtain ⟨r, hr⟩ := autorunSecondPass_ok (mergeCsv en) (mergeCsv dis)
    (autorunFirstPass env (mergeCsv dis) LINTERS ([], [])).1
    (walkFiles env ips) LINTERS
    (autorunFirstPass env (mergeCsv dis) LINTERS ([], [])).2 LINTERS_patterns_some
  exact ⟨r, hr⟩

/-- Membership survives the comma-merge of lines 756-763. -/
theorem mergeCsv_mem_of_mem {xs : List String} {l : String} (h : l ∈ xs) :
    l ∈ mergeCsv xs := by
  cases xs with
  | nil => cases h
  | cons x rest => exact List.mem_append_left _ h

/-- Unfolding of the autorun branch of `linters_to_run` for a supplied
ignore list. -/
theorem linters_to_run_autorun_some (env : Env) (ips en dis : List String) :
    linters_to_run env true (some ips) en dis =
      autorunSecondPass (mergeCsv en) (mergeCsv dis)
        (autorunFirstPass env (mergeCsv dis) LINTERS ([], [])).1
        (walkFiles env ips) LINTERS
        (autorunFirstPass env (mergeCsv dis) LINTERS ([], [])).2 := rfl

/-- Unfolding of the autorun branch of `linters_to_run` for an absent
(`None`) ignore list: the walk raises `TypeError`, which propagates. -/
theorem linters_to_run_autorun_none (env : Env) (en dis : List String) :
    linters_to_run env true none en dis = .error PyErr.typeError := rfl

/-- Unfolding of the non-autorun branch of `linters_to_run`. -/
theorem linters_to_run_not_autorun (env : Env) (ign : Option (List String))
    (en dis : List String) :
    linters_to_run env false ign en dis =
      .ok (LINTERS.foldl
        (fun acc lc => if lc.1 ∈ mergeCsv en then addToSet acc lc.1 else acc)
        []) := rfl

/-- Membership in the non-autorun selection fold: exactly the registry
tools named in the (merged) enabled list, on top of the accumulator. -/
theorem mem_enabledFold (enabled : List String) :
    ∀ (list : List (String × SelLinterConfig)) (acc : List String) (l : String),
      (l ∈ list.foldl
        (fun acc lc => if lc.1 ∈ enabled then addToSet acc lc.1 else acc) acc) ↔
        l ∈ acc ∨ ((∃ c, (l, c) ∈ list) ∧ l ∈ enabled) := by
  intro list
  induction list with
  | nil =>
    intro acc l
    simp
  | cons nc rest ih =>
    intro acc l
    rw [List.foldl_cons, ih]
    constructor
    · rintro (hm | ⟨⟨c, hc⟩, he⟩)
      · by_cases hen : nc.1 ∈ enabled
        · rw [if_pos hen, mem_addToSet] at hm
          rcases hm with hm | rfl
          · exact Or.inl hm
          · exact Or.inr ⟨⟨nc.2, List.mem_cons_self _ _⟩, hen⟩
        · rw [if_neg hen] at hm
          exact Or.inl hm
      · exact Or.inr ⟨⟨c, List.mem_cons_of_mem _ hc⟩, he⟩
    · rintro (hm | ⟨⟨c, hc⟩, he⟩)
      · left
        by_cases hen : nc.1 ∈ enabled
        · rw [if_pos hen]
          exact mem_addToSet.mpr (Or.inl hm)
        · rwa [if_neg hen]
      · rcases List.mem_cons.mp hc with hh | hh
        · left
          have hl : l = nc.1 := by
            have := congrArg Prod.fst hh
            simpa using this
          rw [if_pos (hl ▸ he), mem_addToSet]
          exact Or.inr hl
        · exact Or.inr ⟨⟨c, hh⟩, he⟩

/-! ### Claim C1 -/

/-- C1 counterexample: with autorun off, a tool that is both enabled and
disabled (`bandit`) is selected — the non-autorun branch of
`linters_to_run` (lines 764-767) never consults the disabled list, so the
claimed invariant fails when autorun is false. -/
theorem enabled_disabled_not_autorun_counterexample :
    linters_to_run envTriv false (some []) ["bandit"] ["bandit"]
        = .ok ["bandit"] ∧
      "bandit" ∈ (["bandit"] : List String) := ⟨rfl, by decide⟩

/-- C1 (amended): in autorun mode, a tool named in the disabled list is
never a member of the selected set, whatever the environment, ignore
paths and enabled list; when autorun is false the disabled list is ignored
(see the counterexample). -/
theorem disabled_never_selected_in_autorun (env : Env)
    (ign : Option (List String)) (en dis : List String) (l : String)
    (r : List String) (hd : l ∈ dis)
    (hr : linters_to_run env true ign en dis = .ok r) : l ∉ r := by
  have hd2 : l ∈ mergeCsv dis := mergeCsv_mem_of_mem hd
  cases ign with
  | none =>
    rw [linters_to_run_autorun_none] at hr
    exact Except.noConfusion hr
  | some ips =>
    rw [linters_to_run_autorun_some] at hr
    exact autorunSecondPass_not_mem _ _ _ _ LINTERS _ _ hr hd2
      (autorunFirstPass_not_mem env (mergeCsv dis) LINTERS ([], []) hd2
        (List.not_mem_nil l))

/-- C1 witness: `bandit`, disabled, is not selected in autorun mode on the
trivial project. -/
theorem disabled_never_selected_in_autorun_witness :
    "bandit" ∈ (["bandit"] : List String) ∧ "bandit" ∉ ([] : List String) :=
  ⟨by decide,
    disabled_never_selected_in_autorun envTriv (some []) [] ["bandit"]
      "bandit" [] (by decide) rfl⟩

/-! ### Claim C6 -/

/-- C6: with autorun off, the selected set is exactly the registry tools
named in the comma-merged enabled list; the result does not depend on the
environment (no marker or pattern logic), on the ignore paths, or on the
disabled list. -/
theorem not_autorun_selects_exactly_enabled (env : Env)
    (ign : Option (List String)) (en dis : List String) :
    ∃ r, linters_to_run env false ign en dis = .ok r ∧
      (∀ l, l ∈ r ↔ (∃ c, (l, c) ∈ LINTERS) ∧ l ∈ mergeCsv en) ∧
      ∀ (env2 : Env) (ign2 : Option (List String)) (dis2 : List String),
        linters_to_run env2 false ign2 en dis2
          = linters_to_run env false ign en dis := by
  refine ⟨_, rfl, fun l => ?_, fun env2 ign2 dis2 => rfl⟩
  simpa using mem_enabledFold (mergeCsv en) LINTERS [] l

/-! ### Claim C3 -/

/-- C3 counterexample: `eclint` and `detect-secrets` share language tag
`"all"`, only `eclint` declares marker files, `.editorconfig` exists in the
root, `detect-secrets` declares autorun and is not disabled — yet the
selected set is empty, because `detect-secrets` iterates before `eclint`
records the marker (single first-pass loop) and the recorded marker then
suppresses its pattern-fallback inclusion. -/
theorem marker_cascade_order_counterexample :
    ("eclint", ⟨[".editorconfig"], "all", false, true, false⟩) ∈ LINTERS ∧
      ("detect-secrets", ⟨[], "all", true, false, false⟩) ∈ LINTERS ∧
      dotfiles_exist envEditorconfig ⟨[".editorconfig"], "all", false, true, false⟩
        = true ∧
      linters_to_run envEditorconfig true (some []) [] [] = .ok [] := by
  exact ⟨by decide, by decide, by decide, rfl⟩

/-- C3 (amended): the marker cascade works forward in registry iteration
order — when a tool declaring an existing marker precedes (by any distance)
a tool of the same language that declares autorun and is not disabled, the
later tool is selected in autorun mode; a tool that iterates before every
marker-declaring tool of its language is not (see the counterexample). -/
theorem marker_cascade_forward_order (env : Env) (ips en dis : List String)
    (l1 l2 l3 : List (String × SelLinterConfig)) (b a : String)
    (bc ac : SelLinterConfig)
    (hdec : LINTERS = l1 ++ (b, bc) :: l2 ++ (a, ac) :: l3)
    (hb : dotfiles_exist env bc = true)
    (hlang : ac.language = bc.language)
    (ha : ac.autorun = true)
    (hd : a ∉ mergeCsv dis)
    (r : List String)
    (hr : linters_to_run env true (some ips) en dis = .ok r) :
    a ∈ r := by
  rw [linters_to_run_autorun_some] at hr
  refine autorunSecondPass_mono _ _ _ _ LINTERS _ _ hr ?_
  rw [hdec]
  exact autorunFirstPass_cascade env (mergeCsv dis) l1 l2 l3 b a bc ac
    hb hlang ha hd

/-- C3 witness: `.gometalinter.json` is `gometalinter.v2`'s marker and
precedes `gometalinter` (same language `go`, autorun) in registry order, so
`gometalinter` is selected. -/
theorem marker_cascade_forward_order_witness :
    "gometalinter" ∈ (["gometalinter"] : List String) :=
  marker_cascade_forward_order envGometalinter [] [] []
    (LINTERS.take 8) [] (LINTERS.drop 10) "gometalinter.v2" "gometalinter"
    ⟨[".gometalinter.json"], "go", false, false, false⟩
    ⟨[".gometalinter.json"], "go", true, false, false⟩
    (by decide) (by decide) rfl rfl (by decide) ["gometalinter"] rfl

/-! ### Claim C10 -/

/-- C10: invoking the run in autorun mode with an absent (`None`) ignore
list makes the Scanner iterate `None`, raising a `TypeError` that no
handler catches (the walk's `try` catches only `ValueError`), aborting the
whole run; an explicit — possibly empty — ignore list always lets the
selection succeed. -/
theorem autorun_none_ignore_paths_aborts (env : Env) (o : Oracles)
    (cfgOf : String → ToolCfg) (install : Bool) (en dis : List String)
    (trusted : Bool) :
    run_linters env o cfgOf install true none en dis trusted
        = .error PyErr.typeError ∧
      ∀ ips : List String, ∃ p,
        run_linters env o cfgOf install true (some ips) en dis trusted
          = .ok p := by
  constructor
  · rfl
  · intro ips
    obtain ⟨r, hr⟩ := linters_to_run_autorun_ok env ips en dis
    refine ⟨((runLoop env o install true (some ips)
        (r.map fun n => (n, cfgOf n)) initRunState).msgs,
      (runLoop env o install true (some ips)
        (r.map fun n => (n, cfgOf n)) initRunState).trace), ?_⟩
    unfold run_linters
    rw [hr]

/-! ### Lemmas about directory pruning (Claim C7) -/

/-- Removing one name yields a sublist. -/
theorem removeFirstName_sublist {n : String} :
    ∀ {l l2 : List (String × DirTree)}, removeFirstName n l = some l2 →
      l2.Sublist l := by
  intro l
  induction l with
  | nil => intro l2 h; cases h
  | cons p rest ih =>
    intro l2 h
    by_cases hp : p.1 = n
    · rw [removeFirstName, if_pos hp] at h
      cases h
      exact (List.Sublist.refl rest).cons p
    · rw [removeFirstName, if_neg hp] at h
      rcases hrec : removeFirstName n rest with _ | l3 <;>
        rw [hrec] at h
      · cases h
      · rw [Option.map_some'] at h
        cases h
        exact (ih hrec).cons₂ p

/-- When removal raises `ValueError`, no entry has the name. -/
theorem removeFirstName_eq_none {n : String} :
    ∀ {l : List (String × DirTree)}, removeFirstName n l = none →
      ∀ p ∈ l, p.1 ≠ n := by
  intro l
  induction l with
  | nil => intro _ p hp; cases hp
  | cons q rest ih =>
    intro h p hp
    by_cases hq : q.1 = n
    · rw [removeFirstName, if_pos hq] at h
      cases h
    · rw [removeFirstName, if_neg hq] at h
      rcases hrec : removeFirstName n rest with _ | l3
      · rcases List.mem_cons.mp hp with rfl | hp2
        · exact hq
        · exact ih hrec p hp2
      · rw [hrec, Option.map_some'] at h
        cases h

/-- With pairwise-distinct entry names, removing a name removes every
occurrence of it. -/
theorem removeFirstName_nodup_not_mem {n : String} :
    ∀ {l l2 : List (String × DirTree)}, (l.map Prod.fst).Nodup →
      removeFirstName n l = some l2 → n ∉ l2.map Prod.fst := by
  intro l
  induction l with
  | nil => intro l2 _ h; cases h
  | cons q rest ih =>
    intro l2 hnd h
    rw [List.map_cons] at hnd
    have hnd2 := List.nodup_cons.mp hnd
    by_cases hq : q.1 = n
    · rw [removeFirstName, if_pos hq] at h
      cases h
      rw [← hq]
      exact hnd2.1
    · rw [removeFirstName, if_neg hq] at h
      rcases hrec : removeFirstName n rest with _ | l3 <;>
        rw [hrec] at h
      · cases h
      · rw [Option.map_some'] at h
        cases h
        intro hmem
        rw [List.map_cons] at hmem
        rcases List.mem_cons.mp hmem with h1 | h2
        · exact hq h1.symm
        · exact ih hnd2.2 hrec h2

/-- Pruning only removes entries. -/
theorem pruneDirs_subset {ig : List String} :
    ∀ {sds : List (String × DirTree)} {p : String × DirTree},
      p ∈ pruneDirs ig sds → p ∈ sds := by
  induction ig with
  | nil => intro sds p h; exact h
  | cons i rest ih =>
    intro sds p h
    unfold pruneDirs at h
    rcases hr : removeFirstName i sds with _ | sds2 <;> rw [hr] at h
    · exact h
    · exact (removeFirstName_sublist hr).subset (ih h)

/-- A successful prefix removal yields a sublist. -/
theorem removeAllNames_sublist :
    ∀ (pre : List String) {sds sds2 : List (String × DirTree)},
      removeAllNames pre sds = some sds2 → sds2.Sublist sds := by
  intro pre
  induction pre with
  | nil => intro sds sds2 h; cases h; exact List.Sublist.refl _
  | cons i pr ih =>
    intro sds sds2 h
    unfold removeAllNames at h
    rcases hr : removeFirstName i sds with _ | s3 <;> rw [hr] at h
    · cases h
    · exact (ih h).trans (removeFirstName_sublist hr)

/-- After a fully successful prefix, pruning continues on the remainder. -/
theorem pruneDirs_of_removeAllNames :
    ∀ (pre : List String) {sds sds2 : List (String × DirTree)},
      removeAllNames pre sds = some sds2 →
      ∀ rest, pruneDirs (pre ++ rest) sds = pruneDirs rest sds2 := by
  intro pre
  induction pre with
  | nil => intro sds sds2 h rest; cases h; rfl
  | cons i pr ih =>
    intro sds sds2 h rest
    unfold removeAllNames at h
    rcases hr : removeFirstName i sds with _ | s3 <;> rw [hr] at h
    · cases h
    · simp only [List.cons_append, pruneDirs, hr]
      exact ih h rest

/-! ### Claim C7 -/

/-- C7 counterexample: with ignore rules `["a", "b"]` and a directory whose
only subdirectory is `b`, the rule `"a"` is not present, its `ValueError`
aborts the whole removal loop before `"b"` is processed, and the walk
descends into `./b` even though `"b"` is an ignore rule — so pruning of one
rule is not independent of the other rules present. -/
theorem dir_pruning_counterexample :
    "b" ∈ (["a", "b"] : List String) ∧
      walkRoots envSubdirB ["a", "b"] = [".", "./b"] := ⟨by decide, rfl⟩

/-- C7 (amended): a directory named by ignore rule `r` is pruned from
descent provided every rule before `r` in the ignore list is successfully
removed first (each names a then-present subdirectory) and sibling names
are pairwise distinct; the first rule not present among the subdirectory
names aborts pruning for that directory, leaving later rules unpruned (see
the counterexample). -/
theorem dir_pruning_sequential (ig pre post : List String) (r : String)
    (sds : List (String × DirTree))
    (hig : ig = pre ++ r :: post)
    (hpre : ∃ sds2, removeAllNames pre sds = some sds2)
    (hnd : (sds.map Prod.fst).Nodup) :
    r ∉ (pruneDirs ig sds).map Prod.fst := by
  obtain ⟨sds2, h2⟩ := hpre
  subst hig
  rw [pruneDirs_of_removeAllNames pre h2 (r :: post)]
  have hnd2 : (sds2.map Prod.fst).Nodup :=
    hnd.sublist ((removeAllNames_sublist pre h2).map Prod.fst)
  rcases hr : removeFirstName r sds2 with _ | sds3 <;>
    simp only [pruneDirs, hr]
  · intro hmem
    rcases List.mem_map.mp hmem with ⟨p, hp, hpe⟩
    exact removeFirstName_eq_none hr p hp hpe
  · intro hmem
    rcases List.mem_map.mp hmem with ⟨p, hp, hpe⟩
    exact removeFirstName_nodup_not_mem hnd2 hr
      (List.mem_map.mpr ⟨p, pruneDirs_subset hp, hpe⟩)

/-- C7 witness: with both rules present and distinct sibling names, `b` is
pruned. -/
theorem dir_pruning_sequential_witness :
    "b" ∉ (pruneDirs ["a", "b"] [("a", emptyDir), ("b", emptyDir)]).map
      Prod.fst :=
  dir_pruning_sequential ["a", "b"] ["a"] [] "b"
    [("a", emptyDir), ("b", emptyDir)] rfl ⟨[("b", emptyDir)], rfl⟩
    (by simp)

/-! ### Claim C8 -/

/-- C8: merging one tool's parsed diagnostics into the running set
(lines 936-948) keeps exactly the old diagnostics plus, for each parsed
diagnostic whose path does not match the four-way ignore predicate, the
diagnostic with its text prefixed by the tool name; the merge is set union
by full-tuple value, so merging the same parsed set again adds nothing. -/
theorem aggregator_prefix_filter_dedup (env : Env) (ign : List String)
    (name : String) (parsed acc : Finset Msg) :
    (∀ x : Msg, x ∈ acc ∪ filteredPrefixed env ign name parsed ↔
      (x ∈ acc ∨ ∃ m ∈ parsed, should_ignore_path env m.1 ign = false ∧
        x = (m.1, m.2.1, name ++ ": " ++ m.2.2))) ∧
      (acc ∪ filteredPrefixed env ign name parsed) ∪
          filteredPrefixed env ign name parsed
        = acc ∪ filteredPrefixed env ign name parsed := by
  constructor
  · intro x
    simp only [filteredPrefixed, Finset.mem_union, Finset.mem_image,
      Finset.mem_filter]
    constructor
    · rintro (hx | ⟨m, ⟨hm, hip⟩, hx⟩)
      · exact Or.inl hx
      · exact Or.inr ⟨m, hm, hip, hx.symm⟩
    · rintro (hx | ⟨m, hm, hip, hx⟩)
      · exact Or.inl hx
      · exact Or.inr ⟨m, ⟨hm, hip⟩, hx.symm⟩
  · rw [Finset.union_assoc, Finset.union_self]

/-! ### Lemmas about the run loop -/

/-- A tool whose dispatch raises, or whose install phase raises before the
dispatch, contributes no messages. -/
theorem toolMsgs_eq_empty_of_fail (env : Env) (o : Oracles)
    (ign : Option (List String)) (install autorun : Bool) {tn : String}
    {tc : ToolCfg}
    (hfail : o.exec tn = .error () ∨
      (installAttempted install autorun tc && o.installCrash tn) = true) :
    toolMsgs env o ign install autorun tn tc = ∅ := by
  have hout : toolOutput o install autorun tn tc = "" := by
    unfold toolOutput
    rcases hfail with hf | hf
    · split_ifs
      · rfl
      · rw [hf]
    · rw [if_pos hf]
  simp only [toolMsgs]
  rw [hout]
  rfl

/-- When the stop signal never fires, the final message set is the fold of
per-tool contributions over the tool list. -/
theorem runLoop_msgs_no_stop (env : Env) (o : Oracles) (install autorun : Bool)
    (ign : Option (List String)) (hstop : ∀ i, o.stop i = false) :
    ∀ (cfgs : List (String × ToolCfg)) (st : RunState),
      (runLoop env o install autorun ign cfgs st).msgs =
        cfgs.foldl
          (fun a nc => a ∪ toolMsgs env o ign install autorun nc.1 nc.2)
          st.msgs := by
  intro cfgs
  induction cfgs with
  | nil => intro st; rfl
  | cons nc rest ih =>
    intro st
    simp only [runLoop]
    rw [if_neg (by simp [hstop st.iter])]
    rw [ih]
    rw [List.foldl_cons]
    rfl

/-! ### Claim C2 -/

/-- C2: per-tool fault isolation in `run_linters` — when one selected
tool's install phase or dispatch raises, the run completes normally, that
tool contributes zero diagnostics, and the final message set equals the one
obtained with that tool absent (every other tool's diagnostics are kept). -/
theorem tool_failure_isolated (env : Env) (o : Oracles)
    (install autorun : Bool) (ign : Option (List String))
    (xs : List (String × ToolCfg)) (tn : String) (tc : ToolCfg)
    (ys : List (String × ToolCfg))
    (hstop : ∀ i, o.stop i = false)
    (hfail : o.exec tn = .error () ∨
      (installAttempted install autorun tc && o.installCrash tn) = true) :
    (runLoop env o install autorun ign (xs ++ (tn, tc) :: ys)
        initRunState).msgs =
      (runLoop env o install autorun ign (xs ++ ys) initRunState).msgs := by
  rw [runLoop_msgs_no_stop env o install autorun ign hstop,
    runLoop_msgs_no_stop env o install autorun ign hstop]
  rw [List.foldl_append, List.foldl_append, List.foldl_cons]
  congr 1
  rw [toolMsgs_eq_empty_of_fail env o ign install autorun hfail,
    Finset.union_empty]

/-- C2 witness: tool `b` raising leaves tool `a`'s diagnostics intact. -/
theorem tool_failure_isolated_witness :
    (runLoop envTriv oFailB true false (some [])
        [("a", toolCfgA), ("b", toolCfgA)] initRunState).msgs =
      (runLoop envTriv oFailB true false (some []) [("a", toolCfgA)]
        initRunState).msgs :=
  tool_failure_isolated envTriv oFailB true false (some []) [("a", toolCfgA)]
    "b" toolCfgA [] (fun _ => rfl) (Or.inl rfl)

/-- Counting install executions distributes over trace concatenation. -/
theorem countInstall_append (c : List String) (a b : List Event) :
    countInstall c (a ++ b) = countInstall c a + countInstall c b := by
  simp [countInstall, List.countP_append]

/-- An event that is not an install execution does not count. -/
theorem countInstall_single_ne (c : List String) {e : Event}
    (h : e ≠ Event.installCmd c) : countInstall c [e] = 0 := by
  simp [countInstall, List.countP_cons, h]

/-- A trace without the install execution counts it zero times. -/
theorem countInstall_eq_zero_of_not_mem (c : List String) {tr : List Event}
    (h : Event.installCmd c ∉ tr) : countInstall c tr = 0 := by
  refine List.countP_eq_zero.mpr ?_
  intro e he hp
  exact h (of_decide_eq_true hp ▸ he)

/-- Ledger invariant of `install_linter`: every install execution recorded
in the trace was first recorded in `previous_install_commands`, and no
install command-line is executed twice. -/
theorem installLoop_inv (o : Oracles) (helpCmd : List String) :
    ∀ (cmds ledger : List (List String)) (k : Nat) (tr : List Event),
      (∀ c, Event.installCmd c ∈ tr → c ∈ ledger) →
      (∀ c, countInstall c tr ≤ 1) →
      (∀ c, Event.installCmd c ∈ (installLoop o helpCmd cmds ledger k tr).2.2 →
        c ∈ (installLoop o helpCmd cmds ledger k tr).1) ∧
      (∀ c, countInstall c (installLoop o helpCmd cmds ledger k tr).2.2 ≤ 1) := by
  intro cmds
  induction cmds with
  | nil => intro ledger k tr hmem hcnt; exact ⟨hmem, hcnt⟩
  | cons cmd rest ih =>
    intro ledger k tr hmem hcnt
    by_cases hl : cmd ∈ ledger
    · rw [installLoop, if_pos hl]
      exact ih ledger k tr hmem hcnt
    · rw [installLoop, if_neg hl]
      have hmem2 : ∀ c, Event.installCmd c ∈ tr ++ [Event.probeCmd helpCmd] →
          c ∈ ledger := by
        intro c hc
        rcases List.mem_append.mp hc with hc | hc
        · exact hmem c hc
        · cases List.mem_singleton.mp hc
      have hcnt2 : ∀ c, countInstall c (tr ++ [Event.probeCmd helpCmd]) ≤ 1 := by
        intro c
        rw [countInstall_append, countInstall_single_ne c (by intro h; cases h)]
        simpa using hcnt c
      by_cases hik : o.installed k = true
      · rw [if_pos hik]
        refine ⟨fun c hc => List.mem_append_left _ (hmem2 c hc), hcnt2⟩
      · rw [if_neg hik]
        apply ih
        · intro c hc
          rcases List.mem_append.mp hc with hc | hc
          · exact List.mem_append_left _ (hmem2 c hc)
          · cases List.mem_singleton.mp hc
            exact List.mem_append_right _ (List.mem_singleton.mpr rfl)
        · intro c
          by_cases hceq : c = cmd
          · subst hceq
            have h0 : countInstall c (tr ++ [Event.probeCmd helpCmd]) = 0 := by
              rw [countInstall_append, countInstall_single_ne c (by intro h; cases h)]
              rw [countInstall_eq_zero_of_not_mem c (fun hin => hl (hmem c hin))]
            rw [countInstall_append, h0]
            simp [countInstall, List.countP_cons]
          · rw [countInstall_append,
              countInstall_single_ne c (by intro h; cases h; exact hceq rfl)]
            simpa using hcnt2 c

/-- Appending a non-install event preserves the ledger invariant. -/
theorem install_inv_append_ne {ledger : List (List String)} {tr : List Event}
    (hmem : ∀ c, Event.installCmd c ∈ tr → c ∈ ledger)
    (hcnt : ∀ c, countInstall c tr ≤ 1) {e : Event}
    (he : ∀ c, e ≠ Event.installCmd c) :
    (∀ c, Event.installCmd c ∈ tr ++ [e] → c ∈ ledger) ∧
      (∀ c, countInstall c (tr ++ [e]) ≤ 1) := by
  constructor
  · intro c hc
    rcases List.mem_append.mp hc with hc | hc
    · exact hmem c hc
    · exact absurd (List.mem_singleton.mp hc).symm (he c)
  · intro c
    rw [countInstall_append, countInstall_single_ne c (he c)]
    simpa using hcnt c

/-- The install phase preserves the ledger invariant. -/
theorem installPhase_inv (o : Oracles) (install autorun : Bool)
    (nc : String × ToolCfg) (st : RunState)
    (hmem : ∀ c, Event.installCmd c ∈ st.trace → c ∈ st.ledger)
    (hcnt : ∀ c, countInstall c st.trace ≤ 1) :
    (∀ c, Event.installCmd c ∈ (installPhase o install autorun nc st).2.2 →
      c ∈ (installPhase o install autorun nc st).1) ∧
    (∀ c, countInstall c (installPhase o install autorun nc st).2.2 ≤ 1) := by
  unfold installPhase
  split_ifs
  · exact installLoop_inv o nc.2.help nc.2.install st.ledger st.probes st.trace
      hmem hcnt
  · exact ⟨hmem, hcnt⟩

/-- The dispatch trace preserves the ledger invariant. -/
theorem execTrace_inv (o : Oracles) (install autorun : Bool)
    (nc : String × ToolCfg) {ledger : List (List String)} {tr : List Event}
    (hmem : ∀ c, Event.installCmd c ∈ tr → c ∈ ledger)
    (hcnt : ∀ c, countInstall c tr ≤ 1) :
    (∀ c, Event.installCmd c ∈ execTrace o install autorun nc tr → c ∈ ledger) ∧
      (∀ c, countInstall c (execTrace o install autorun nc tr) ≤ 1) := by
  unfold execTrace
  split_ifs
  · exact ⟨hmem, hcnt⟩
  · rcases hex : o.exec nc.1 with ⟨u⟩ | ⟨out⟩
    · exact ⟨hmem, hcnt⟩
    · exact install_inv_append_ne hmem hcnt (fun c h => by cases h)

/-- The ledger invariant is preserved by one tool iteration. -/
theorem toolStep_install_inv (env : Env) (o : Oracles) (install autorun : Bool)
    (ign : Option (List String)) (st : RunState) (nc : String × ToolCfg)
    (hmem : ∀ c, Event.installCmd c ∈ st.trace → c ∈ st.ledger)
    (hcnt : ∀ c, countInstall c st.trace ≤ 1) :
    (∀ c, Event.installCmd c ∈ (toolStep env o install autorun ign st nc).trace →
      c ∈ (toolStep env o install autorun ign st nc).ledger) ∧
    (∀ c, countInstall c (toolStep env o install autorun ign st nc).trace ≤ 1) := by
  have hip := installPhase_inv o install autorun nc st hmem hcnt
  exact execTrace_inv o install autorun nc hip.1 hip.2

/-- The ledger invariant is preserved by the whole loop. -/
theorem runLoop_install_inv (env : Env) (o : Oracles) (install autorun : Bool)
    (ign : Option (List String)) :
    ∀ (cfgs : List (String × ToolCfg)) (st : RunState),
      (∀ c, Event.installCmd c ∈ st.trace → c ∈ st.ledger) →
      (∀ c, countInstall c st.trace ≤ 1) →
      ∀ c, countInstall c
        (runLoop env o install autorun ign cfgs st).trace ≤ 1 := by
  intro cfgs
  induction cfgs with
  | nil => intro st _ hcnt c; exact hcnt c
  | cons nc rest ih =>
    intro st hmem hcnt c
    have hst1 := install_inv_append_ne hmem hcnt
      (show ∀ c2, Event.stopCheck st.iter ≠ Event.installCmd c2 from
        fun c2 h => by cases h)
    simp only [runLoop]
    split_ifs with hstop
    · exact hst1.2 c
    · have hts := toolStep_install_inv env o install autorun ign
        { st with trace := st.trace ++ [Event.stopCheck st.iter] } nc
        hst1.1 hst1.2
      exact ih
        { toolStep env o install autorun ign
            { st with trace := st.trace ++ [Event.stopCheck st.iter] } nc with
          iter := st.iter + 1 } hts.1 hts.2 c

/-! ### Claim C5 -/

/-- C5: within one run, every install command-line reaches the process
executor as an install execution at most once, whatever tools are selected
and however many of their install lists share it — `install_linter` records
each command in `previous_install_commands` before probing and skips any
command already recorded. -/
theorem install_commands_deduplicated (env : Env) (o : Oracles)
    (install autorun : Bool) (ign : Option (List String))
    (cfgs : List (String × ToolCfg)) (c : List String) :
    countInstall c
      (runLoop env o install autorun ign cfgs initRunState).trace ≤ 1 := by
  refine runLoop_install_inv env o install autorun ign cfgs initRunState
    (fun c hc => absurd hc (List.not_mem_nil _)) (fun c => ?_) c
  simp [countInstall, initRunState]

/-- The installer emits no trusted-install executor calls. -/
theorem installLoop_no_trusted (o : Oracles) (helpCmd : List String) :
    ∀ (cmds ledger : List (List String)) (k : Nat) (tr : List Event),
      (installLoop o helpCmd cmds ledger k tr).2.2.filter Event.isTrusted
        = tr.filter Event.isTrusted := by
  intro cmds
  induction cmds with
  | nil => intro ledger k tr; rfl
  | cons cmd rest ih =>
    intro ledger k tr
    by_cases hl : cmd ∈ ledger
    · rw [installLoop, if_pos hl, ih]
    · rw [installLoop, if_neg hl]
      by_cases hik : o.installed k = true
      · rw [if_pos hik]
        simp [List.filter_append, Event.isTrusted]
      · rw [if_neg hik, ih]
        simp [List.filter_append, Event.isTrusted]

/-- The whole tool loop emits no trusted-install executor calls. -/
theorem runLoop_no_trusted (env : Env) (o : Oracles) (install autorun : Bool)
    (ign : Option (List String)) :
    ∀ (cfgs : List (String × ToolCfg)) (st : RunState),
      (runLoop env o install autorun ign cfgs st).trace.filter Event.isTrusted
        = st.trace.filter Event.isTrusted := by
  intro cfgs
  induction cfgs with
  | nil => intro st; rfl
  | cons nc rest ih =>
    intro st
    simp only [runLoop]
    split_ifs with hstop
    · simp [List.filter_append, Event.isTrusted]
    · rw [ih]
      show (execTrace o install autorun nc
          (installPhase o install autorun nc
            { st with trace := st.trace ++ [Event.stopCheck st.iter] }).2.2).filter
          Event.isTrusted = _
      unfold execTrace
      have hin : ((installPhase o install autorun nc
          { st with trace := st.trace ++ [Event.stopCheck st.iter] }).2.2).filter
          Event.isTrusted = st.trace.filter Event.isTrusted := by
        unfold installPhase
        split_ifs
        · rw [installLoop_no_trusted]
          simp [List.filter_append, Event.isTrusted]
        · simp [List.filter_append, Event.isTrusted]
      split_ifs
      · exact hin
      · rcases o.exec nc.1 with ⟨u⟩ | ⟨out⟩
        · exact hin
        · rw [List.filter_append, hin]
          simp [Event.isTrusted]

/-! ### Claim C4 -/

/-- C4: the trusted bootstrap never actually runs.  Line 903 calls
`self.install_trusted()` without `await`, so the coroutine is created and
discarded and its body — which would execute every `TRUSTED_INSTALL`
command-line — never runs: the whole run is identical with `trusted` true
or false, the run's executor trace contains no trusted-install call, and
what an awaited `install_trusted` would have executed is exactly the
`TRUSTED_INSTALL` list. -/
theorem trusted_install_never_runs (env : Env) (o : Oracles)
    (cfgOf : String → ToolCfg) (install autorun : Bool)
    (ign : Option (List String)) (en dis : List String) :
    run_linters env o cfgOf install autorun ign en dis true
        = run_linters env o cfgOf install autorun ign en dis false ∧
      (traceOf (run_linters env o cfgOf install autorun ign en dis
        true)).filter Event.isTrusted = [] ∧
      ∀ (pyExe : String) (c : List String),
        Event.trustedCmd c ∈ install_trusted_events pyExe ↔
          c ∈ TRUSTED_INSTALL pyExe := by
  refine ⟨rfl, ?_, fun pyExe c => ?_⟩
  · unfold run_linters traceOf
    rcases hsel : linters_to_run env autorun ign en dis with ⟨e⟩ | ⟨sel⟩
    · rfl
    · show ((runLoop env o install autorun ign
          (sel.map fun n => (n, cfgOf n)) initRunState).trace).filter
          Event.isTrusted = []
      rw [runLoop_no_trusted]
      rfl
  · unfold install_trusted_events
    rw [List.mem_map]
    constructor
    · rintro ⟨a, ha, he⟩
      cases he
      exact ha
    · intro hc
      exact ⟨c, hc, rfl⟩

/-- Stop-signal behaviour of the tool loop, relative to a starting state:
if the signal is false at the first `k` checks and true at the `k`-th
(zero-based) check, the loop equals the loop over the first `k` tools, plus
the final stop check that observed the signal; in particular the messages
are those accumulated from the first `k` tools and no later tool
contributes events. -/
theorem runLoop_stop_aux (env : Env) (o : Oracles) (install autorun : Bool)
    (ign : Option (List String)) :
    ∀ (cfgs : List (String × ToolCfg)) (st : RunState) (k : Nat),
      (∀ i, i < k → o.stop (st.iter + i) = false) →
      o.stop (st.iter + k) = true → k < cfgs.length →
      runLoop env o install autorun ign cfgs st =
        { runLoop env o install autorun ign (cfgs.take k) st with
          trace := (runLoop env o install autorun ign (cfgs.take k) st).trace
            ++ [Event.stopCheck (st.iter + k)] } := by
  intro cfgs
  induction cfgs with
  | nil => intro st k _ _ h3; exact absurd h3 (by simp)
  | cons nc rest ih =>
    intro st k h1 h2 h3
    cases k with
    | zero =>
      simp only [List.take_zero, runLoop]
      rw [if_pos (by simpa using h2)]
      rfl
    | succ k2 =>
      have hs : o.stop st.iter = false := by
        have := h1 0 (Nat.succ_pos k2)
        simpa using this
      simp only [runLoop, List.take_succ_cons]
      rw [if_neg (by simp [hs]), if_neg (by simp [hs])]
      have harith : ∀ j : Nat, st.iter + 1 + j = st.iter + (j + 1) :=
        fun j => by omega
      have hres := ih
        { toolStep env o install autorun ign
            { st with trace := st.trace ++ [Event.stopCheck st.iter] } nc with
          iter := st.iter + 1 } k2
        (fun i hi => by
          show o.stop (st.iter + 1 + i) = false
          rw [harith i]
          exact h1 (i + 1) (Nat.succ_lt_succ hi))
        (by
          show o.stop (st.iter + 1 + k2) = true
          rw [harith k2]
          exact h2)
        (Nat.lt_of_succ_lt_succ h3)
      rw [hres]
      dsimp only
      rw [harith k2]

/-! ### Claim C9 -/

/-- C9: the cooperative stop signal is queried exactly once per outer-loop
iteration, at the boundary before each tool; when it first reads true at
the boundary after `k` completed tools, the run returns normally with
exactly the state accumulated from those `k` tools — the only difference
from a run over the first `k` tools alone is the final boundary check that
observed the signal; no later tool is installed, executed or parsed. -/
theorem stop_signal_checked_per_tool (env : Env) (o : Oracles)
    (install autorun : Bool) (ign : Option (List String))
    (cfgs : List (String × ToolCfg)) (k : Nat)
    (h1 : ∀ i, i < k → o.stop i = false) (h2 : o.stop k = true)
    (h3 : k < cfgs.length) :
    runLoop env o install autorun ign cfgs initRunState =
      { runLoop env o install autorun ign (cfgs.take k) initRunState with
        trace := (runLoop env o install autorun ign (cfgs.take k)
          initRunState).trace ++ [Event.stopCheck k] } := by
  have hres := runLoop_stop_aux env o install autorun ign cfgs initRunState k
    (fun i hi => by simpa [initRunState] using h1 i hi)
    (by simpa [initRunState] using h2) h3
  simpa [initRunState] using hres

/-- C9 witness: the signal set at its second check stops the two-tool run
after the first tool. -/
theorem stop_signal_checked_per_tool_witness :
    runLoop envTriv oStopAtOne true false (some [])
        [("a", toolCfgA), ("b", toolCfgA)] initRunState =
      { runLoop envTriv oStopAtOne true false (some [])
          ([("a", toolCfgA), ("b", toolCfgA)].take 1) initRunState with
        trace := (runLoop envTriv oStopAtOne true false (some [])
          ([("a", toolCfgA), ("b", toolCfgA)].take 1) initRunState).trace
            ++ [Event.stopCheck 1] } :=
  stop_signal_checked_per_tool envTriv oStopAtOne true false (some [])
    [("a", toolCfgA), ("b", toolCfgA)] 1
    (fun i hi => by
      have h0 : i = 0 := Nat.lt_one_iff.mp hi
      subst h0
      rfl)
    rfl (by decide)
